import Mathlib

/-!
# Verification of the drmake core (cmd/drmake/main.go)

A shallow embedding of the manifest parser, target registry, recipe
resolver (`Dockerfile`), execution-order planner (`buildExecOrder`) and
listing helper (`print`) of the drmake build orchestrator, together with
theorems settling the specification claims about them.

Strings are modelled as `List Char` (Go strings are byte slices; all the
text the core manipulates is ASCII).  Go maps are modelled as association
lists whose order stands for one map iteration order; `upsert` mirrors a
Go map assignment (keys stay unique, last assignment wins).  The
unbounded Go recursion in `Dockerfile` and `buildExecOrder` is modelled
with an explicit fuel parameter that counts nesting depth; running out of
fuel is a distinguished result that corresponds to non-termination of the
original recursion.
-/

namespace Drmake

/-- Text, modelled as a list of characters. -/
abbrev Str := List Char

/-- Shorthand for turning a string literal into the `List Char` model. -/
def str (s : String) : Str := s.toList

/-- Go `unicode.IsSpace` restricted to the code points that can occur in
manifest text (ASCII whitespace plus NEL and NBSP, as in Go). -/
def isSpaceC (c : Char) : Bool :=
  c = ' ' || c = '\t' || c = '\n' || c = '\x0b' || c = '\x0c' || c = '\r' ||
  c = '\u0085' || c = ' '

/-- Go `strings.Trim s cutset`: remove leading and trailing characters
that appear in `cut`. -/
def trimCut (cut : Str) (l : Str) : Str :=
  ((l.dropWhile (fun c => cut.contains c)).reverse.dropWhile
    (fun c => cut.contains c)).reverse

/-- `strings.Trim · " \r\n"`, the trim used on manifest lines and on
resolved recipe prefaces. -/
def trimWs (l : Str) : Str := trimCut (str " \r\n") l

/-- Uppercase every character (Go `strings.ToUpper` on ASCII text). -/
def upperStr (l : Str) : Str := l.map Char.toUpper

/-- Lowercase every character (Go `strings.ToLower` on ASCII text). -/
def lowerStr (l : Str) : Str := l.map Char.toLower

/-- Go `strings.Fields`: split on runs of whitespace, dropping empties.
Written with one-character lookahead so the recursion is structural;
`fields_cons_of_not_space` below recovers the usual maximal-run
characterization. -/
def fields : Str → List Str
  | [] => []
  | c :: cs =>
    if isSpaceC c then fields cs
    else
      match cs with
      | [] => [[c]]
      | d :: _ =>
        if isSpaceC d then [c] :: fields cs
        else
          match fields cs with
          | [] => [[c]]
          | w :: ws => (c :: w) :: ws

/-- Go `strings.Join · " "` on the model. -/
def joinSp (xs : List Str) : Str := List.intercalate [' '] xs

/-- Go `strings.SplitN s sep 2` for a one-character separator: the part
before the first occurrence, and (if the separator occurs) the part
after it. -/
def splitFirst (sep : Char) (l : Str) : Str × Option Str :=
  if l.contains sep then
    (l.takeWhile (fun c => c ≠ sep), some ((l.dropWhile (fun c => c ≠ sep)).drop 1))
  else (l, none)

/-- One target record (struct `target` in the source): name, image
reference, accumulated recipe body (`defn`), description, ordered
dependency list, and the artifact map (as an assoc list, keys unique). -/
structure Target where
  name : Str
  image : Str
  defn : Str
  desc : Str
  deps : List Str
  artifacts : List (Str × Str)
deriving DecidableEq, Repr

/-- The registry (`targetlist`, a Go map) as an association list; the
list order stands for one iteration order of the Go map. -/
abbrev Registry := List (Str × Target)

/-- Lookup by key in an association list (Go map read). -/
def lookupA {α : Type} : List (Str × α) → Str → Option α
  | [], _ => none
  | (k, v) :: r, n => if k = n then some v else lookupA r n

/-- Go map assignment: replace the binding if the key is present,
otherwise append it.  Keys stay unique; the last assignment wins. -/
def upsertA {α : Type} : List (Str × α) → Str → α → List (Str × α)
  | [], k, v => [(k, v)]
  | (k', v') :: r, k, v =>
    if k' = k then (k, v) :: r else (k', v') :: upsertA r k v

/-- Case-insensitive literal-keyword match: if the first `kw.length`
characters of `l` uppercase to `kw`, return the remainder. -/
def ciPrefix (kw : Str) (l : Str) : Option Str :=
  if kw.length ≤ l.length ∧ upperStr (l.take kw.length) = kw then
    some (l.drop kw.length)
  else none

/-- The optional `(?:\s+AS\s+(\S+))?` group of `reFromLine`: at least one
whitespace, the literal `AS` (case-insensitive), at least one whitespace,
then a maximal non-empty run of non-whitespace (the captured name).
Returns the capture and the remainder of the line. -/
def asGroup (l : Str) : Option (Str × Str) :=
  let w := l.takeWhile isSpaceC
  if w = [] then none
  else
    match ciPrefix (str "AS") (l.drop w.length) with
    | none => none
    | some r =>
      let w2 := r.takeWhile isSpaceC
      if w2 = [] then none
      else
        let nm := (r.drop w2.length).takeWhile (fun c => !isSpaceC c)
        if nm = [] then none
        else some (nm, (r.drop w2.length).drop nm.length)

/-- The optional `(?:\s+USING\s+(.+)$)?` group of `reFromLine`: at least
one whitespace, the literal `USING` (case-insensitive), at least one
whitespace, then the (greedy, non-empty) rest of the line.  When what
follows `USING` is whitespace only, the regex backtracks so that `.+`
keeps the last whitespace character, provided at least two are present.
Returns the capture, or `[]` when the group does not participate. -/
def usingGroup (l : Str) : Str :=
  let w := l.takeWhile isSpaceC
  if w = [] then []
  else
    match ciPrefix (str "USING") (l.drop w.length) with
    | none => []
    | some r =>
      let k := (r.takeWhile isSpaceC).length
      if k = 0 then []
      else if r.drop k ≠ [] then r.drop k
      else if 2 ≤ k then r.drop (k - 1)
      else []

/-- `reFromLine.FindStringSubmatch`, i.e. the regex
`(?i)^FROM\s+(\S+)(?:\s+AS\s+(\S+))?(?:\s+USING\s+(.+)$)?` applied to a
whole line: returns the captured (image, name, dependency-text) triple,
with `[]` for an absent optional capture, or `none` when the line does
not match at all. -/
def parseFromLine (l : Str) : Option (Str × Str × Str) :=
  match ciPrefix (str "FROM") l with
  | none => none
  | some r1 =>
    let w := r1.takeWhile isSpaceC
    if w = [] then none
    else
      let r2 := r1.drop w.length
      let image := r2.takeWhile (fun c => !isSpaceC c)
      if image = [] then none
      else
        let r3 := r2.drop image.length
        let nmr :=
          match asGroup r3 with
          | some (n, r) => (n, r)
          | none => (([] : Str), r3)
        some (image, nmr.1, usingGroup nmr.2)

/-- A Go `\w` word character: ASCII letter, digit, or underscore. -/
def isWordChar (c : Char) : Bool := c.isAlphanum || c = '_'

/-- The last element of `regexp.MustCompile("\\b").Split(image, -1)` for
a non-empty image string: the maximal trailing run of characters of
uniform word-ness (word-boundary positions are exactly the transitions,
and Go's `Split` drops a trailing empty segment). -/
def lastWordRun (l : Str) : Str :=
  match l.reverse with
  | [] => []
  | c :: _ => (l.reverse.takeWhile (fun d => isWordChar d = isWordChar c)).reverse

/-- The fatal parse error of the core (`log.Fatal` in `parseMakefile`). -/
inductive ParseErr where
  | malformedArgumentDeclaration
deriving DecidableEq, Repr

deriving instance DecidableEq for Except

/-- Parser state: the registry, the name of the current target (the
`atarget` pointer always aliases the registry entry stored under its own
name), and the first-seen target name (the default target). -/
structure PState where
  registry : Registry
  current : Option Str
  firstTarget : Option Str
deriving DecidableEq, Repr

/-- The empty initial parser state. -/
def initState : PState := ⟨[], none, none⟩

/-- Apply a field update to the current target's registry entry. -/
def updateCur (st : PState) (cur : Str) (f : Target → Target) : PState :=
  match lookupA st.registry cur with
  | none => st
  | some t => { st with registry := upsertA st.registry cur (f t) }

/-- The `ENV KEY=${KEY}` line synthesized for an `ENVARG` declaration
(with its trailing newline). -/
def envBindLine (key : Str) : Str :=
  str "ENV " ++ key ++ str "=$\x7b" ++ key ++ str "\x7d\n"

/-- One iteration of the `parseMakefile` loop, applied to a fully joined
and trimmed line: skip blanks and comment lines; a `FROM` line that
matches `reFromLine` registers a new target and makes it current (a
non-matching `FROM` line is skipped); otherwise, with no current target
the line is ignored, and with a current target the `ARTIFACT`, `ENVARG`
and `LABEL` keywords (each requiring at least one operand to be
recognized) are interpreted, any other line being appended verbatim to
the current target's body. -/
def processLine (st : PState) (line : Str) : Except ParseErr PState :=
  match line with
  | [] => .ok st
  | h :: _ =>
    if h = '#' then .ok st
    else
      match fields line with
      | [] =>
        match st.current with
        | none => .ok st
        | some cur =>
          .ok (updateCur st cur (fun t => { t with defn := t.defn ++ line ++ ['\n'] }))
      | c0 :: crest =>
        if upperStr c0 = str "FROM" then
          match parseFromLine line with
          | none => .ok st
          | some (image, nm, usingrest) =>
            let name := if nm = [] then lastWordRun image else nm
            let t : Target := ⟨name, image, [], [], fields usingrest, []⟩
            .ok { registry := upsertA st.registry name t,
                  current := some name,
                  firstTarget := st.firstTarget.orElse (fun _ => some name) }
        else
          match st.current with
          | none => .ok st
          | some cur =>
            match crest with
            | [] =>
              .ok (updateCur st cur (fun t => { t with defn := t.defn ++ line ++ ['\n'] }))
            | c1 :: crest2 =>
              if upperStr c0 = str "ARTIFACT" then
                let artargs := joinSp (c1 :: crest2)
                let sep := if artargs.contains '=' then '=' else ' '
                let s := splitFirst sep artargs
                let src := s.1
                let dst := match s.2 with
                  | some d => d
                  | none => s.1
                .ok (updateCur st cur (fun t =>
                  { t with artifacts := upsertA t.artifacts src dst }))
              else if upperStr c0 = str "ENVARG" then
                if crest2 = [] then
                  let key := c1.takeWhile (fun c => c ≠ '=')
                  .ok (updateCur st cur (fun t =>
                    { t with defn := t.defn ++ line.drop 3 ++ ['\n'] ++ envBindLine key }))
                else .error .malformedArgumentDeclaration
              else if upperStr c0 = str "LABEL" then
                let kv := splitFirst '=' (joinSp (c1 :: crest2))
                .ok (updateCur st cur (fun t =>
                  let desc' := match kv.2 with
                    | some v =>
                      if lowerStr (trimCut (str "\"") kv.1) = str "description" then
                        trimCut (str "\"") v
                      else t.desc
                    | none => t.desc
                  { t with desc := desc', defn := t.defn ++ line ++ ['\n'] }))
              else
                .ok (updateCur st cur (fun t => { t with defn := t.defn ++ line ++ ['\n'] }))

/-- Go `strings.Split(data, "\n")` on the model. -/
def splitNl : Str → List Str
  | [] => [[]]
  | c :: cs =>
    if c = '\n' then [] :: splitNl cs
    else
      match splitNl cs with
      | [] => [[c]]
      | x :: xs => (c :: x) :: xs

/-- The line-continuation pass of `parseMakefile`: each raw line is
trimmed and appended to the pending prefix; a line ending in `" \"`
drops its final backslash (keeping the space) and carries over to the
next raw line.  A prefix still pending at end of input is dropped. -/
def joinLines (prev : Str) : List Str → List Str
  | [] => []
  | raw :: rest =>
    let line := prev ++ trimWs raw
    if (str " \\").isSuffixOf line then joinLines line.dropLast rest
    else line :: joinLines [] rest

/-- Fold `processLine` over a list of joined lines. -/
def parseLines (st : PState) : List Str → Except ParseErr PState
  | [] => .ok st
  | l :: ls =>
    match processLine st l with
    | .ok st' => parseLines st' ls
    | .error e => .error e

/-- `parseMakefile` on manifest text already read from disk: split into
raw lines, join continuations, and run the line loop from the empty
state.  Returns the final registry, current target and default target. -/
def parseMakefile (content : Str) : Except ParseErr PState :=
  parseLines initState (joinLines [] (splitNl content))

/-! ## Execution-order planner (`buildExecOrder`) -/

/-- First-occurrence deduplication, recursion form: keep the head and
drop its later duplicates. -/
def dedupFirst {α : Type} [DecidableEq α] : List α → List α
  | [] => []
  | x :: xs => x :: dedupFirst (xs.filter (fun y => !(y == x)))
termination_by l => l.length
decreasing_by
  simp only [List.length_cons]
  have := List.length_filter_le (fun y => !(y == x)) xs
  omega

/-- First-occurrence deduplication with a seen-set accumulator,
mirroring the `ordTargets` index map of `buildExecOrder`: a name already
assigned an index is skipped, a new name is appended, and the output is
read back in index order. -/
def dedupScan {α : Type} [DecidableEq α] (seen : List α) : List α → List α
  | [] => []
  | x :: xs =>
    if seen.contains x then dedupScan seen xs
    else x :: dedupScan (x :: seen) xs

/-- Result of one planner call: the ordered name list, a fatal
unknown-target lookup (`log.Fatal` in `find`), or fuel exhaustion
(standing for the unbounded recursion of the fuel-free Go code). -/
inductive PlanResult where
  | ok (order : List Str)
  | unknownTarget (name : Str)
  | outOfFuel
deriving DecidableEq, Repr

/-- The per-request loop of `buildExecOrder`, producing `unordTargets`,
abstracted over the nested recursive call `recur` (one nesting level
deeper): for each requested name, look it up (fatally failing when
absent), plan its dependencies with `recur` — a full nested
`buildExecOrder` call, whose own final deduplication is the inlined
`dedupScan []` — and emit the deduplicated dependency order followed by
the target itself. -/
def bexStep (reg : Registry) (recur : List Str → PlanResult) : List Str → PlanResult
  | [] => .ok []
  | n :: ns =>
    match lookupA reg n with
    | none => .unknownTarget n
    | some t =>
      match recur t.deps with
      | .ok dep =>
        match bexStep reg recur ns with
        | .ok rest => .ok (dedupScan [] dep ++ n :: rest)
        | .unknownTarget m => .unknownTarget m
        | .outOfFuel => .outOfFuel
      | .unknownTarget m => .unknownTarget m
      | .outOfFuel => .outOfFuel

/-- The `buildExecOrder` request loop at a given recursion-depth budget:
descending into a dependency list costs one unit of fuel, and a loop
asked to descend with no fuel left reports `outOfFuel` (the Go code,
which has no such budget, would just keep recursing). -/
def bexLoop (reg : Registry) : Nat → List Str → PlanResult
  | 0 => bexStep reg (fun _ => .outOfFuel)
  | f + 1 => bexStep reg (bexLoop reg f)

/-- `buildExecOrder`: run the request loop, then deduplicate
`unordTargets` keeping first occurrences (the `ordTargets` index map),
returning the planned order of target names. -/
def buildExecOrder (reg : Registry) (fuel : Nat) (ts : List Str) : PlanResult :=
  match bexLoop reg fuel ts with
  | .ok unord => .ok (dedupScan [] unord)
  | e => e

/-- The specification's depth-first dependency flattening, written from
the spec's words: for each requested name, the flattened order of its
dependencies (depth-first, in declared order) followed by the target
itself, concatenated in request order, with no deduplication.  The spec
order is this flattening deduplicated to first occurrences. -/
def specStep (reg : Registry) (recur : List Str → PlanResult) : List Str → PlanResult
  | [] => .ok []
  | n :: ns =>
    match lookupA reg n with
    | none => .unknownTarget n
    | some t =>
      match recur t.deps with
      | .ok dep =>
        match specStep reg recur ns with
        | .ok rest => .ok (dep ++ n :: rest)
        | .unknownTarget m => .unknownTarget m
        | .outOfFuel => .outOfFuel
      | .unknownTarget m => .unknownTarget m
      | .outOfFuel => .outOfFuel

/-- The spec's flattening at a given recursion-depth budget (see
`specStep`; fuel plays the same role as in `bexLoop`). -/
def specFlatten (reg : Registry) : Nat → List Str → PlanResult
  | 0 => specStep reg (fun _ => .outOfFuel)
  | f + 1 => specStep reg (specFlatten reg f)

/-! ## Recipe resolver (`Dockerfile`) -/

/-- Result of recipe resolution: the recipe text, a fatal unknown-target
lookup, a fatal unreadable recipe file, or fuel exhaustion. -/
inductive DockerResult where
  | ok (text : Str)
  | unknownTarget (name : Str)
  | readError (image : Str)
  | outOfFuel
deriving DecidableEq, Repr

/-- The filesystem as seen by `dockerfileFromPath`: the contents of the
`Dockerfile` in a given directory, or `none` when unreadable. -/
abbrev FileSys := Str → Option Str

/-- `dockerfileFromPath`: read the conventional `Dockerfile` of the
referenced directory, fatally failing when it cannot be read, and trim
surrounding spaces and blank lines from its contents. -/
def dockerfileFromPath (fs : FileSys) (image : Str) (path : Str) : DockerResult :=
  match fs path with
  | none => .readError image
  | some data => .ok (trimWs data)

/-- `Dockerfile`: assemble the full recipe of a target as
`preface ++ "\n" ++ body`, where the preface comes from a
workspace-recipe directory (`&name`), another same-file target resolved
recursively and trimmed (`#name`), a relative directory (`./path`), or
is the literal `FROM image` header line; a `#`-reference to the
target's own name short-circuits and returns the empty string. -/
def dockerStep (reg : Registry) (fs : FileSys) (recur : Target → DockerResult)
    (t : Target) : DockerResult :=
  if ['&'].isPrefixOf t.image then
    match dockerfileFromPath fs t.image (str ".drmake/targets/" ++ t.image.drop 1) with
    | .ok preface => .ok (preface ++ '\n' :: t.defn)
    | e => e
  else if ['#'].isPrefixOf t.image then
    if t.image.drop 1 = t.name then .ok []
    else
      match lookupA reg (t.image.drop 1) with
      | none => .unknownTarget (t.image.drop 1)
      | some pre =>
        match recur pre with
        | .ok preres => .ok (trimWs preres ++ '\n' :: t.defn)
        | e => e
  else if (str "./").isPrefixOf t.image then
    match dockerfileFromPath fs t.image (t.image.drop 2) with
    | .ok preface => .ok (preface ++ '\n' :: t.defn)
    | e => e
  else .ok (str "FROM " ++ t.image ++ '\n' :: t.defn)

/-- `Dockerfile` at a given recursion-depth budget: each nested
resolution of a `#`-referenced target costs one unit of fuel. -/
def dockerfile (reg : Registry) (fs : FileSys) : Nat → Target → DockerResult
  | 0 => dockerStep reg fs (fun _ => .outOfFuel)
  | f + 1 => dockerStep reg fs (dockerfile reg fs f)

/-! ## State-passing variants for the frame property

The Go `Dockerfile` and `buildExecOrder` receive the registry (a map of
pointers to target structs) and could in principle mutate it; these
variants thread the registry through every step and recursive call
exactly where the Go control flow passes it, so that proving the
returned registry equal to the argument establishes that no call writes
to the registry or to any target's fields. -/

/-- State-passing `Dockerfile` step: identical control flow to
`dockerStep`, with the registry threaded in and out of the nested
resolution `recur`. -/
def dockerStepS (fs : FileSys) (recur : Registry → Target → DockerResult × Registry)
    (reg : Registry) (t : Target) : DockerResult × Registry :=
  if ['&'].isPrefixOf t.image then
    (match dockerfileFromPath fs t.image (str ".drmake/targets/" ++ t.image.drop 1) with
     | .ok preface => .ok (preface ++ '\n' :: t.defn)
     | e => e, reg)
  else if ['#'].isPrefixOf t.image then
    if t.image.drop 1 = t.name then (.ok [], reg)
    else
      match lookupA reg (t.image.drop 1) with
      | none => (.unknownTarget (t.image.drop 1), reg)
      | some pre =>
        let pr := recur reg pre
        (match pr.1 with
         | .ok preres => .ok (trimWs preres ++ '\n' :: t.defn)
         | e => e, pr.2)
  else if (str "./").isPrefixOf t.image then
    (match dockerfileFromPath fs t.image (t.image.drop 2) with
     | .ok preface => .ok (preface ++ '\n' :: t.defn)
     | e => e, reg)
  else (.ok (str "FROM " ++ t.image ++ '\n' :: t.defn), reg)

/-- State-passing `Dockerfile` at a given recursion-depth budget. -/
def dockerfileS (fs : FileSys) : Nat → Registry → Target → DockerResult × Registry
  | 0 => dockerStepS fs (fun reg _ => (.outOfFuel, reg))
  | f + 1 => dockerStepS fs (dockerfileS fs f)

/-- State-passing `buildExecOrder` request loop step: identical control
flow to `bexStep`, with the registry threaded through both the nested
planning call and the rest of the loop. -/
def bexStepS (recur : Registry → List Str → PlanResult × Registry) :
    Registry → List Str → PlanResult × Registry
  | reg, [] => (.ok [], reg)
  | reg, n :: ns =>
    match lookupA reg n with
    | none => (.unknownTarget n, reg)
    | some t =>
      let dep := recur reg t.deps
      match dep.1 with
      | .ok d =>
        let rest := bexStepS recur dep.2 ns
        (match rest.1 with
         | .ok r => .ok (dedupScan [] d ++ n :: r)
         | e => e, rest.2)
      | e => (e, dep.2)

/-- State-passing `buildExecOrder` request loop at a given budget. -/
def bexLoopS : Nat → Registry → List Str → PlanResult × Registry
  | 0 => bexStepS (fun reg _ => (.outOfFuel, reg))
  | f + 1 => bexStepS (bexLoopS f)

/-- State-passing `buildExecOrder`: loop, then deduplicate. -/
def buildExecOrderS (fuel : Nat) (reg : Registry) (ts : List Str) :
    PlanResult × Registry :=
  let r := bexLoopS fuel reg ts
  (match r.1 with
   | .ok unord => .ok (dedupScan [] unord)
   | e => e, r.2)

/-! ## Listing (`print`) -/

/-- The collection loop of `print` over the registry in iteration
order: a name is considered only when strictly longer than the longest
name seen so far, and is kept when its target's description is
non-empty.  Returns the final padding width and the collected names. -/
def printScan : Nat → List Str → Registry → Nat × List Str
  | longest, acc, [] => (longest, acc)
  | longest, acc, (name, t) :: rest =>
    if longest < name.length then
      if t.desc = [] then printScan longest acc rest
      else printScan name.length (acc ++ [name]) rest
    else printScan longest acc rest

/-- Byte-wise lexicographic `≤` on strings (Go `sort.Strings` order). -/
def lexLe : Str → Str → Bool
  | [], _ => true
  | _ :: _, [] => false
  | a :: as, b :: bs => if a = b then lexLe as bs else decide (a < b)

/-- Insertion into a `lexLe`-sorted list. -/
def insertLex (x : Str) : List Str → List Str
  | [] => [x]
  | y :: ys => if lexLe x y then x :: y :: ys else y :: insertLex x ys

/-- Lexicographic sort (`sort.Strings`). -/
def sortLex : List Str → List Str
  | [] => []
  | x :: xs => insertLex x (sortLex xs)

/-- `%-Ns`: left-justify by padding with spaces to width `w`. -/
def padTo (w : Nat) (s : Str) : Str := s ++ List.replicate (w - s.length) ' '

/-- The names `print` lists, in output order. -/
def printNames (reg : Registry) : List Str := sortLex (printScan 0 [] reg).2

/-- The full lines `print` writes, one per listed name. -/
def printLines (reg : Registry) : List Str :=
  let p := printScan 0 [] reg
  (sortLex p.2).map (fun name =>
    str "drmake " ++ padTo p.1 name ++ str " # " ++
      (match lookupA reg name with
       | some t => t.desc
       | none => []))

/-! ## Concrete fixtures for witnesses and counterexamples -/

/-- A target with empty body, description and artifacts. -/
def mkTarget (n i : String) (ds : List String) : Target :=
  ⟨str n, str i, [], [], ds.map str, []⟩

/-- The diamond registry of the spec: A depends on [B, C], B and C both
depend on [D], D on nothing. -/
def diamondReg : Registry :=
  [(str "A", mkTarget "A" "img" ["B", "C"]),
   (str "B", mkTarget "B" "img" ["D"]),
   (str "C", mkTarget "C" "img" ["D"]),
   (str "D", mkTarget "D" "img" [])]

/-- A rank function witnessing that the diamond is acyclic. -/
def diamondRank : Str → Nat :=
  fun n => if n = str "A" then 2 else if n = str "D" then 0 else 1

/-- A registry whose only target depends on an absent name. -/
def missingDepReg : Registry := [(str "A", mkTarget "A" "img" ["X"])]

/-- A self-referencing target: its image reference is the same-file
sigil followed by its own name, and its body is non-empty. -/
def selfTarget : Target := ⟨str "a", str "#a", str "RUN build\n", [], [], []⟩

/-- Registry holding just the self-referencing target. -/
def selfReg : Registry := [(str "a", selfTarget)]

/-- A filesystem on which every read fails. -/
def noFs : FileSys := fun _ => none

/-- A plain target used as the current target in parser fixtures. -/
def exTargetT : Target := ⟨str "t", str "alpine", [], [], [], []⟩

/-- Parser state with one registered target `t`, which is current. -/
def exState : PState := ⟨[(str "t", exTargetT)], some (str "t"), some (str "t")⟩

/-- `exState` after a bare `ENVARG` line: the line is appended verbatim
to the body and no error is raised. -/
def exStateAfterBare : PState :=
  ⟨[(str "t", ⟨str "t", str "alpine", str "ENVARG\n", [], [], []⟩)],
   some (str "t"), some (str "t")⟩

/-- Listing fixture: `a` and `c` carry descriptions, `b` does not. -/
def printTargetA : Target := ⟨str "a", str "i", [], str "desc A", [], []⟩

/-- Listing fixture: described target `c`. -/
def printTargetC : Target := ⟨str "c", str "i", [], str "desc C", [], []⟩

/-- Listing fixture: target `b` with an empty description. -/
def printTargetB : Target := ⟨str "b", str "i", [], [], [], []⟩

/-- The listing registry in iteration order a, b, c. -/
def printRegAsc : Registry :=
  [(str "a", printTargetA), (str "b", printTargetB), (str "c", printTargetC)]

/-- The listing registry in iteration order c, b, a. -/
def printRegDesc : Registry :=
  [(str "c", printTargetC), (str "b", printTargetB), (str "a", printTargetA)]

/-- The artifact-splitting rule as the spec words it: rejoin the operand
tokens, split on the first `=` if one occurs anywhere, else on the first
space; when neither occurs, source and destination are both the whole
text. -/
def artifactSpecSplit (artargs : Str) : Str × Str :=
  if artargs.contains '=' then
    (artargs.takeWhile (fun c => c ≠ '='), (artargs.dropWhile (fun c => c ≠ '=')).drop 1)
  else if artargs.contains ' ' then
    (artargs.takeWhile (fun c => c ≠ ' '), (artargs.dropWhile (fun c => c ≠ ' ')).drop 1)
  else (artargs, artargs)

/-- Correspondence between planner results: identical error behavior,
and order lists that agree after first-occurrence deduplication. -/
def planRel : PlanResult → PlanResult → Prop
  | .ok u, .ok v => dedupFirst u = dedupFirst v
  | .unknownTarget m, .unknownTarget m' => m = m'
  | .outOfFuel, .outOfFuel => True
  | _, _ => False

/-! ## Helper lemmas -/

/-- A field starts at a non-space character and extends over the maximal
following run of non-space characters. -/
theorem fields_cons_of_not_space (c : Char) (cs : Str) (hc : ¬isSpaceC c) :
    fields (c :: cs) =
      (c :: cs.takeWhile (fun d => !isSpaceC d)) ::
        fields (cs.dropWhile (fun d => !isSpaceC d)) := by
  induction cs generalizing c with
  | nil => simp [fields, hc]
  | cons d ds ih =>
    by_cases hd : isSpaceC d
    · simp [fields, hc, hd, List.takeWhile_cons, List.dropWhile_cons]
    · rw [show fields (c :: d :: ds) =
          match fields (d :: ds) with
          | [] => [[c]]
          | w :: ws => (c :: w) :: ws by simp [fields, hc, hd]]
      rw [ih d hd]
      simp [List.takeWhile_cons, List.dropWhile_cons, hd]

@[simp] theorem lookupA_upsertA_self {α : Type} (m : List (Str × α)) (k : Str) (v : α) :
    lookupA (upsertA m k v) k = some v := by
  induction m with
  | nil => simp [upsertA, lookupA]
  | cons h r ih =>
    obtain ⟨k', v'⟩ := h
    by_cases hk : k' = k
    · simp [upsertA, hk, lookupA]
    · simp [upsertA, hk, lookupA, ih]

/-! ## Properties of first-occurrence deduplication -/

theorem dedupFirst_filter {α : Type} [DecidableEq α] (l : List α) :
    ∀ p : α → Bool, dedupFirst (l.filter p) = (dedupFirst l).filter p := by
  induction l using dedupFirst.induct with
  | case1 => intro p; simp [dedupFirst]
  | case2 x xs ih =>
    intro p
    by_cases hx : p x
    · rw [show (x :: xs).filter p = x :: xs.filter p by simp [hx]]
      rw [dedupFirst, dedupFirst]
      rw [show (xs.filter p).filter (fun y => !(y == x)) =
            (xs.filter (fun y => !(y == x))).filter p by
        rw [List.filter_filter, List.filter_filter]
        exact List.filter_congr fun a _ => Bool.and_comm _ _]
      rw [ih p]
      simp [List.filter_cons, hx]
    · rw [show (x :: xs).filter p = xs.filter p by simp [hx]]
      rw [dedupFirst]
      rw [show List.filter p (x :: dedupFirst (xs.filter (fun y => !(y == x)))) =
            List.filter p (dedupFirst (xs.filter (fun y => !(y == x)))) by
        simp [List.filter_cons, hx]]
      rw [← ih p, List.filter_filter]
      congr 1
      refine List.filter_congr fun a _ => ?_
      by_cases ha : p a
      · have hax : (!(a == x)) = true := by
          simp only [Bool.not_eq_true', beq_eq_false_iff_ne]
          rintro rfl; exact hx ha
        simp [ha, hax]
      · simp [ha]

theorem dedupFirst_idem {α : Type} [DecidableEq α] (l : List α) :
    dedupFirst (dedupFirst l) = dedupFirst l := by
  induction l using dedupFirst.induct with
  | case1 => simp [dedupFirst]
  | case2 x xs ih =>
    rw [dedupFirst, dedupFirst]
    rw [show (dedupFirst (xs.filter (fun y => !(y == x)))).filter (fun y => !(y == x)) =
          dedupFirst (xs.filter (fun y => !(y == x))) by
      rw [← dedupFirst_filter, List.filter_filter]
      congr 1
      refine List.filter_congr fun a _ => ?_
      by_cases ha : (a == x) = true <;> simp [ha]]
    rw [ih]

theorem dedupFirst_dedupFirst_append {α : Type} [DecidableEq α] (a : List α) :
    ∀ w : List α, dedupFirst (dedupFirst a ++ w) = dedupFirst (a ++ w) := by
  induction a using dedupFirst.induct with
  | case1 => intro w; simp [dedupFirst]
  | case2 x xs ih =>
    intro w
    rw [dedupFirst, List.cons_append, List.cons_append, dedupFirst, dedupFirst,
      List.filter_append, List.filter_append]
    rw [show (dedupFirst (xs.filter (fun y => !(y == x)))).filter (fun y => !(y == x)) =
          dedupFirst (xs.filter (fun y => !(y == x))) by
      rw [← dedupFirst_filter, List.filter_filter]
      congr 1
      refine List.filter_congr fun a _ => ?_
      by_cases ha : (a == x) = true <;> simp [ha]]
    rw [ih]

theorem dedupFirst_cons_congr {α : Type} [DecidableEq α] {w w' : List α}
    (h : dedupFirst w = dedupFirst w') (c : α) :
    dedupFirst (c :: w) = dedupFirst (c :: w') := by
  rw [dedupFirst, dedupFirst, dedupFirst_filter, dedupFirst_filter, h]

theorem dedupFirst_append_congr_right {α : Type} [DecidableEq α] (a : List α) :
    ∀ {w w' : List α}, dedupFirst w = dedupFirst w' →
      dedupFirst (a ++ w) = dedupFirst (a ++ w') := by
  induction a using dedupFirst.induct with
  | case1 => intro w w' h; simpa using h
  | case2 x xs ih =>
    intro w w' h
    rw [List.cons_append, List.cons_append, dedupFirst, dedupFirst,
      List.filter_append, List.filter_append]
    have h' : dedupFirst (w.filter (fun y => !(y == x))) =
        dedupFirst (w'.filter (fun y => !(y == x))) := by
      rw [dedupFirst_filter, dedupFirst_filter, h]
    rw [ih h']

theorem dedupScan_eq_dedupFirst_filter {α : Type} [DecidableEq α] (l : List α) :
    ∀ seen : List α, dedupScan seen l = dedupFirst (l.filter (fun y => !(seen.contains y))) := by
  induction l with
  | nil => intro seen; simp [dedupScan, dedupFirst]
  | cons x xs ih =>
    intro seen
    by_cases hx : seen.contains x
    · have hxm : x ∈ seen := by simpa using hx
      rw [dedupScan, if_pos hx, ih seen]
      congr 1
      simp [List.filter_cons, hxm]
    · have hxm : x ∉ seen := by simpa using hx
      rw [dedupScan, if_neg hx, ih (x :: seen)]
      rw [show (x :: xs).filter (fun y => !(seen.contains y)) =
            x :: xs.filter (fun y => !(seen.contains y)) by
        simp [List.filter_cons, hxm]]
      rw [dedupFirst, List.filter_filter]
      congr 2
      refine List.filter_congr fun a _ => ?_
      by_cases hax : (a == x) = true
      · have hax' : a = x := by simpa using hax
        subst hax'
        simp [List.contains_cons, hxm]
      · have hax' : ¬a = x := by simpa using hax
        simp [List.contains_cons, hax, hax']

theorem dedupScan_nil_eq_dedupFirst {α : Type} [DecidableEq α] (l : List α) :
    dedupScan [] l = dedupFirst l := by
  rw [dedupScan_eq_dedupFirst_filter]
  simp

theorem lookupA_mem {α : Type} :
    ∀ {m : List (Str × α)} {n : Str} {v : α}, lookupA m n = some v → (n, v) ∈ m := by
  intro m
  induction m with
  | nil => intro n v h; simp [lookupA] at h
  | cons p r ih =>
    intro n v h
    obtain ⟨k, w⟩ := p
    by_cases hk : k = n
    · subst hk
      rw [lookupA, if_pos rfl] at h
      cases h
      exact List.mem_cons_self _ _
    · rw [lookupA, if_neg hk] at h
      exact List.mem_cons_of_mem _ (ih h)

theorem bexStep_rel (reg : Registry) (r1 r2 : List Str → PlanResult)
    (hrec : ∀ ds, planRel (r1 ds) (r2 ds)) :
    ∀ ts, planRel (bexStep reg r1 ts) (specStep reg r2 ts) := by
  intro ts
  induction ts with
  | nil => simp [bexStep, specStep, planRel]
  | cons n ns ih =>
    simp only [bexStep, specStep]
    cases hl : lookupA reg n with
    | none => simp [planRel]
    | some t =>
      simp only []
      have h1 := hrec t.deps
      cases e1 : r1 t.deps with
      | ok dep =>
        cases e2 : r2 t.deps with
        | ok v =>
          rw [e1, e2] at h1
          simp only [planRel] at h1
          cases e3 : bexStep reg r1 ns with
          | ok rest =>
            cases e4 : specStep reg r2 ns with
            | ok vrest =>
              rw [e3, e4] at ih
              simp only [planRel] at ih
              simp only [planRel]
              rw [dedupScan_nil_eq_dedupFirst, h1, dedupFirst_dedupFirst_append]
              exact dedupFirst_append_congr_right v (dedupFirst_cons_congr ih n)
            | unknownTarget m => rw [e3, e4] at ih; simp [planRel] at ih
            | outOfFuel => rw [e3, e4] at ih; simp [planRel] at ih
          | unknownTarget m =>
            cases e4 : specStep reg r2 ns with
            | ok vrest => rw [e3, e4] at ih; simp [planRel] at ih
            | unknownTarget m' =>
              rw [e3, e4] at ih
              simp only [planRel] at ih
              subst ih
              simp [planRel]
            | outOfFuel => rw [e3, e4] at ih; simp [planRel] at ih
          | outOfFuel =>
            cases e4 : specStep reg r2 ns with
            | ok vrest => rw [e3, e4] at ih; simp [planRel] at ih
            | unknownTarget m' => rw [e3, e4] at ih; simp [planRel] at ih
            | outOfFuel => simp [planRel]
        | unknownTarget m => rw [e1, e2] at h1; simp [planRel] at h1
        | outOfFuel => rw [e1, e2] at h1; simp [planRel] at h1
      | unknownTarget m =>
        cases e2 : r2 t.deps with
        | ok v => rw [e1, e2] at h1; simp [planRel] at h1
        | unknownTarget m' =>
          rw [e1, e2] at h1
          simp only [planRel] at h1
          subst h1
          simp [planRel]
        | outOfFuel => rw [e1, e2] at h1; simp [planRel] at h1
      | outOfFuel =>
        cases e2 : r2 t.deps with
        | ok v => rw [e1, e2] at h1; simp [planRel] at h1
        | unknownTarget m' => rw [e1, e2] at h1; simp [planRel] at h1
        | outOfFuel => simp [planRel]

theorem bexLoop_rel (reg : Registry) :
    ∀ (fuel : Nat) (ts : List Str), planRel (bexLoop reg fuel ts) (specFlatten reg fuel ts) := by
  intro fuel
  induction fuel with
  | zero =>
    exact bexStep_rel reg _ _ (fun _ => by simp [planRel])
  | succ f ih =>
    exact bexStep_rel reg _ _ ih

theorem specFlatten_ok (reg : Registry) (rank : Str → Nat)
    (Hrank : ∀ p ∈ reg, ∀ d ∈ (Prod.snd p).deps, rank d < rank (Prod.fst p))
    (Hclosed : ∀ p ∈ reg, ∀ d ∈ (Prod.snd p).deps, (lookupA reg d).isSome = true) :
    ∀ (fuel : Nat) (ts : List Str),
      (∀ n ∈ ts, (lookupA reg n).isSome = true) →
      (∀ n ∈ ts, rank n < fuel) →
      ∃ l, specFlatten reg fuel ts = .ok l := by
  intro fuel
  induction fuel using Nat.strong_induction_on with
  | _ fuel ihf =>
    intro ts
    induction ts with
    | nil =>
      intro _ _
      exact ⟨[], by cases fuel <;> simp [specFlatten, specStep]⟩
    | cons n ns ihts =>
      intro hpres hrank
      have hn : (lookupA reg n).isSome = true := hpres n (List.mem_cons_self n ns)
      obtain ⟨t, hl⟩ : ∃ t, lookupA reg n = some t := by
        cases e : lookupA reg n with
        | none => rw [e] at hn; simp at hn
        | some t => exact ⟨t, rfl⟩
      have hmem : (n, t) ∈ reg := lookupA_mem hl
      have hfn : rank n < fuel := hrank n (List.mem_cons_self n ns)
      cases fuel with
      | zero => omega
      | succ f =>
        obtain ⟨ld, e1⟩ := ihf f (Nat.lt_succ_self f) t.deps
          (fun d hd => Hclosed (n, t) hmem d hd)
          (fun d hd =>
            Nat.lt_of_lt_of_le (Hrank (n, t) hmem d hd) (Nat.lt_succ_iff.mp hfn))
        obtain ⟨lr, e2⟩ := ihts
          (fun m hm => hpres m (List.mem_cons_of_mem _ hm))
          (fun m hm => hrank m (List.mem_cons_of_mem _ hm))
        refine ⟨ld ++ n :: lr, ?_⟩
        have e2' : specStep reg (specFlatten reg f) ns = .ok lr := by
          rw [← e2]; rfl
        simp [specFlatten, specStep, hl, e1, e2']

theorem bexLoop_ne_outOfFuel (reg : Registry) (rank : Str → Nat)
    (Hrank : ∀ p ∈ reg, ∀ d ∈ (Prod.snd p).deps,
      (lookupA reg d).isSome = true → rank d < rank (Prod.fst p)) :
    ∀ (fuel : Nat) (ts : List Str),
      (∀ n ∈ ts, (lookupA reg n).isSome = true → rank n < fuel) →
      bexLoop reg fuel ts ≠ .outOfFuel := by
  intro fuel
  induction fuel using Nat.strong_induction_on with
  | _ fuel ihf =>
    intro ts
    induction ts with
    | nil =>
      intro _
      cases fuel <;> simp [bexLoop, bexStep]
    | cons n ns ihts =>
      intro hrank
      cases hl : lookupA reg n with
      | none =>
        cases fuel <;> simp [bexLoop, bexStep, hl]
      | some t =>
        have hfn : rank n < fuel :=
          hrank n (List.mem_cons_self n ns) (by rw [hl]; rfl)
        cases fuel with
        | zero => omega
        | succ f =>
          have hmem : (n, t) ∈ reg := lookupA_mem hl
          have hdep : bexLoop reg f t.deps ≠ .outOfFuel :=
            ihf f (Nat.lt_succ_self f) t.deps
              (fun d _ hdp =>
                Nat.lt_of_lt_of_le (Hrank (n, t) hmem d (by assumption) hdp)
                  (Nat.lt_succ_iff.mp hfn))
          have hrest : bexLoop reg (f + 1) ns ≠ .outOfFuel :=
            ihts (fun m hm => hrank m (List.mem_cons_of_mem _ hm))
          simp only [bexLoop, bexStep, hl]
          cases e1 : bexLoop reg f t.deps with
          | ok dep =>
            cases e3 : bexStep reg (bexLoop reg f) ns with
            | ok rest => simp
            | unknownTarget m => simp
            | outOfFuel =>
              exact absurd (by simpa [bexLoop] using e3) hrest
          | unknownTarget m => simp
          | outOfFuel => exact absurd e1 hdep

/-! ## Claim theorems -/

/-- C1: for every registry that is acyclic (witnessed by a rank function
decreasing along declared dependencies) and dependency-closed, and every
request list of names present in the registry, `buildExecOrder` (at any
sufficient recursion budget) returns exactly the concatenation, in
request order, of each request's depth-first dependency flattening
(dependencies in declared order, then the target itself), deduplicated
to the first occurrence of each name — and in particular, on the diamond
A→[B,C], B→[D], C→[D], D→[], requesting [A] yields [D, B, C, A]: D
before B and C, B and C before A, and D exactly once. -/
theorem C1_buildExecOrder_dedups_depth_first_flatten :
    (∀ (reg : Registry) (rank : Str → Nat) (fuel : Nat) (ts : List Str),
        (∀ p ∈ reg, ∀ d ∈ (Prod.snd p).deps, rank d < rank (Prod.fst p)) →
        (∀ p ∈ reg, ∀ d ∈ (Prod.snd p).deps, (lookupA reg d).isSome = true) →
        (∀ n ∈ ts, (lookupA reg n).isSome = true) →
        (∀ n ∈ ts, rank n < fuel) →
        ∃ l, specFlatten reg fuel ts = .ok l ∧
          buildExecOrder reg fuel ts = .ok (dedupFirst l)) ∧
      buildExecOrder diamondReg 3 [str "A"] =
        .ok [str "D", str "B", str "C", str "A"] := by
  constructor
  · intro reg rank fuel ts h1 h2 h3 h4
    obtain ⟨l, e⟩ := specFlatten_ok reg rank h1 h2 fuel ts h3 h4
    have hrel := bexLoop_rel reg fuel ts
    rw [e] at hrel
    cases eb : bexLoop reg fuel ts with
    | ok u =>
      rw [eb] at hrel
      simp only [planRel] at hrel
      exact ⟨l, e, by
        simp [buildExecOrder, eb, dedupScan_nil_eq_dedupFirst, hrel]⟩
    | unknownTarget m => rw [eb] at hrel; simp [planRel] at hrel
    | outOfFuel => rw [eb] at hrel; simp [planRel] at hrel
  · decide

/-- Witness for C1 at the diamond registry. -/
theorem C1_witness :
    ∃ l, specFlatten diamondReg 3 [str "A"] = .ok l ∧
      buildExecOrder diamondReg 3 [str "A"] = .ok (dedupFirst l) :=
  C1_buildExecOrder_dedups_depth_first_flatten.1 diamondReg diamondRank 3 [str "A"]
    (by decide) (by decide) (by decide) (by decide)

/-- C5: for every registry that is acyclic on its present targets
(witnessed by a rank function decreasing along dependencies whose
referenced name is present), `buildExecOrder` at any budget exceeding
the ranks of the requested names never exhausts its budget: planning
terminates, whether it succeeds or fails with an unknown-target error.
A dependency cycle, which admits no such rank function, is the only
source of unbounded recursion. -/
theorem C5_buildExecOrder_terminates_when_acyclic :
    ∀ (reg : Registry) (rank : Str → Nat) (fuel : Nat) (ts : List Str),
      (∀ p ∈ reg, ∀ d ∈ (Prod.snd p).deps,
        (lookupA reg d).isSome = true → rank d < rank (Prod.fst p)) →
      (∀ n ∈ ts, (lookupA reg n).isSome = true → rank n < fuel) →
      buildExecOrder reg fuel ts ≠ .outOfFuel := by
  intro reg rank fuel ts h1 h2
  have hne := bexLoop_ne_outOfFuel reg rank h1 fuel ts h2
  simp only [buildExecOrder]
  cases eb : bexLoop reg fuel ts with
  | ok u => simp
  | unknownTarget m => simp
  | outOfFuel => exact absurd eb hne

/-- Witness for C5: the one-target registry whose dependency `X` is
absent still terminates (with an unknown-target error, not fuel
exhaustion). -/
theorem C5_witness : buildExecOrder missingDepReg 1 [str "A"] ≠ .outOfFuel :=
  C5_buildExecOrder_terminates_when_acyclic missingDepReg (fun _ => 0) 1 [str "A"]
    (by decide) (by decide)

/-- C2 counterexample: for the self-referencing target with non-empty
body `"RUN build\n"`, `Dockerfile` returns the empty string — not the
body — so the resolved recipe text is not the body unchanged. -/
theorem C2_counterexample :
    dockerfile selfReg noFs 1 selfTarget = .ok [] ∧
      dockerfile selfReg noFs 1 selfTarget ≠ .ok selfTarget.defn := by
  decide

/-- C2 (amended): for every target whose image reference is the
same-file sigil followed by its own name, `Dockerfile` short-circuits
and returns the empty string: the preface is empty and the body is not
emitted either (the caller detects the empty recipe and skips the
container build for such a target). -/
theorem C2_selfref_resolves_to_empty_text
    (reg : Registry) (fs : FileSys) (fuel : Nat) (t : Target)
    (h : t.image = '#' :: t.name) :
    dockerfile reg fs fuel t = .ok [] := by
  have hstep : ∀ recur, dockerStep reg fs recur t = .ok [] := by
    intro recur
    have hamp : ('&' == '#') = false := by decide
    have hA : ['&'].isPrefixOf t.image = false := by
      rw [h]
      simp [List.isPrefixOf, hamp]
    have hB : ['#'].isPrefixOf t.image = true := by
      rw [h]
      simp [List.isPrefixOf]
    have hself : t.image.drop 1 = t.name := by rw [h]; rfl
    simp [dockerStep, hA, hB, hself]
  cases fuel with
  | zero => exact hstep _
  | succ f => exact hstep _

/-- Witness for C2 (amended) at the concrete self-referencing target. -/
theorem C2_witness : dockerfile selfReg noFs 0 selfTarget = .ok [] :=
  C2_selfref_resolves_to_empty_text selfReg noFs 0 selfTarget (by decide)

/-! ## Parser claim helpers -/

theorem fields_first_head {line k : Str} {r : List Str}
    (hf : fields line = k :: r) (hh : line.head? = some '#') :
    k.head? = some '#' := by
  cases line with
  | nil => simp [fields] at hf
  | cons c cs =>
    have hc : c = '#' := by simpa using hh
    subst hc
    rw [fields_cons_of_not_space '#' cs (by decide)] at hf
    cases hf
    rfl

theorem keyword_head_ne_hash {k : Str} {w : String} (h : upperStr k = str w)
    (hw : (str w).head? ≠ some '#') : k.head? ≠ some '#' := by
  intro hk
  have hmap : (upperStr k).head? = (k.head?).map Char.toUpper := by
    simp [upperStr]
  rw [h, hk] at hmap
  have hup : Char.toUpper '#' = '#' := by decide
  simp [hup] at hmap
  exact hw (by rw [hmap])

/-- The head character of a line whose first field uppercases to a
non-`#` keyword is not the comment character. -/
theorem line_head_ne_hash {line k : Str} {r : List Str} {w : String}
    (hf : fields line = k :: r) (hk : upperStr k = str w)
    (hw : (str w).head? ≠ some '#') (c : Char) (hc : line.head? = some c) :
    ¬c = '#' := by
  intro he
  subst he
  exact keyword_head_ne_hash hk hw (fields_first_head hf hc)

/-! ## Parser claim theorems -/

/-- C3 counterexample: a bare `ENVARG` line (zero operands) while a
target is current does not fail: the recognizer requires at least one
operand before treating the line as an argument declaration, so the
line falls through and is appended verbatim to the body. -/
theorem C3_counterexample :
    processLine exState (str "ENVARG") = .ok exStateAfterBare ∧
      processLine exState (str "ENVARG") ≠
        .error ParseErr.malformedArgumentDeclaration := by
  decide

/-- C3 (amended): an argument-declaration line with more than one
operand fails fatally with the malformed-argument-declaration error,
but a line consisting of the bare keyword alone (zero operands) is not
recognized as an argument declaration at all: it is appended verbatim
to the current target's body and parsing continues without error. -/
theorem C3_envarg_arity :
    (∀ (st : PState) (cur : Str) (t : Target) (line k c1 c2 : Str) (rest : List Str),
      st.current = some cur →
      lookupA st.registry cur = some t →
      fields line = k :: c1 :: c2 :: rest →
      upperStr k = str "ENVARG" →
      processLine st line = .error ParseErr.malformedArgumentDeclaration) ∧
    (∀ (st : PState) (cur : Str) (t : Target) (line k : Str),
      st.current = some cur →
      lookupA st.registry cur = some t →
      fields line = [k] →
      upperStr k = str "ENVARG" →
      processLine st line = .ok { st with
        registry := upsertA st.registry cur
          ({ t with defn := t.defn ++ line ++ ['\n'] }) }) := by
  have hne1 : ¬(str "ENVARG" = str "FROM") := by decide
  have hne2 : ¬(str "ENVARG" = str "ARTIFACT") := by decide
  have hhw : (str "ENVARG").head? ≠ some '#' := by decide
  constructor
  · intro st cur t line k c1 c2 rest hcur ht hf hk
    cases line with
    | nil => simp [fields] at hf
    | cons h0 tl =>
      have hh : ¬h0 = '#' := line_head_ne_hash hf hk hhw h0 rfl
      simp [processLine, hh, hf, hcur, ht, updateCur, hk, hne1, hne2]
  · intro st cur t line k hcur ht hf hk
    cases line with
    | nil => simp [fields] at hf
    | cons h0 tl =>
      have hh : ¬h0 = '#' := line_head_ne_hash hf hk hhw h0 rfl
      simp [processLine, hh, hf, hcur, ht, updateCur, hk, hne1, hne2]

/-- Witness for C3 (amended): `ENVARG A B` aborts with the
malformed-argument-declaration error, and a bare `ENVARG` line is
appended verbatim without error. -/
theorem C3_witness :
    processLine exState (str "ENVARG A B") =
        .error ParseErr.malformedArgumentDeclaration ∧
      processLine exState (str "ENVARG") = .ok { exState with
        registry := upsertA exState.registry (str "t")
          ({ exTargetT with defn := exTargetT.defn ++ str "ENVARG" ++ ['\n'] }) } :=
  ⟨C3_envarg_arity.1 exState (str "t") exTargetT (str "ENVARG A B")
      (str "ENVARG") (str "A") (str "B") [] rfl (by decide) (by decide) (by decide),
   C3_envarg_arity.2 exState (str "t") exTargetT (str "ENVARG")
      (str "ENVARG") rfl (by decide) (by decide) (by decide)⟩

/-- C6: an argument-declaration line with exactly one operand appends
exactly two lines to the current target's body — the native
argument-declare line `line[3:]` (the keyword's trailing `ARG` plus the
original `KEY=VALUE` payload) and the environment-bind line
`ENV KEY=${KEY}`, which references the declared key twice — and the
original keyword line itself is not appended; concretely,
`ENVARG VERSION=1.2.3` expands to `ARG VERSION=1.2.3` and
`ENV VERSION=${VERSION}`. -/
theorem C6_envarg_expands_to_two_lines :
    (∀ (st : PState) (cur : Str) (t : Target) (line k kv : Str),
      st.current = some cur →
      lookupA st.registry cur = some t →
      fields line = [k, kv] →
      upperStr k = str "ENVARG" →
      processLine st line = .ok { st with
        registry := upsertA st.registry cur
          ({ t with defn := t.defn ++ line.drop 3 ++ ['\n'] ++
              envBindLine (kv.takeWhile (fun c => c ≠ '=')) }) }) ∧
    processLine exState (str "ENVARG VERSION=1.2.3") = .ok { exState with
      registry := upsertA exState.registry (str "t")
        ({ exTargetT with
            defn := str "ARG VERSION=1.2.3\nENV VERSION=$\x7bVERSION\x7d\n" }) } := by
  have hne1 : ¬(str "ENVARG" = str "FROM") := by decide
  have hne2 : ¬(str "ENVARG" = str "ARTIFACT") := by decide
  have hhw : (str "ENVARG").head? ≠ some '#' := by decide
  constructor
  · intro st cur t line k kv hcur ht hf hk
    cases line with
    | nil => simp [fields] at hf
    | cons h0 tl =>
      have hh : ¬h0 = '#' := line_head_ne_hash hf hk hhw h0 rfl
      simp [processLine, hh, hf, hcur, ht, updateCur, hk, hne1, hne2]
  · decide

/-- Witness for C6 at the spec's own example line. -/
theorem C6_witness :
    processLine exState (str "ENVARG VERSION=1.2.3") = .ok { exState with
      registry := upsertA exState.registry (str "t")
        ({ exTargetT with
          defn := exTargetT.defn ++ (str "ENVARG VERSION=1.2.3").drop 3 ++ ['\n'] ++
            envBindLine ((str "VERSION=1.2.3").takeWhile (fun c => c ≠ '=')) }) } :=
  C6_envarg_expands_to_two_lines.1 exState (str "t") exTargetT
    (str "ENVARG VERSION=1.2.3") (str "ENVARG") (str "VERSION=1.2.3")
    rfl (by decide) (by decide) (by decide)

/-- C7: an artifact-declaration line parsed while a target is current
rejoins the remaining tokens with single spaces and splits them on the
first `=` if one occurs anywhere, else on the first space, the left part
becoming the source key and the right part (or the left part again when
no delimiter occurs) the destination in the current target's artifact
map; the raw line is not appended to the body, and a later declaration
for the same source key overwrites the earlier one. -/
theorem C7_artifact_split_and_store :
    (∀ (st : PState) (cur : Str) (t : Target) (line k c1 : Str) (rest : List Str),
      st.current = some cur →
      lookupA st.registry cur = some t →
      fields line = k :: c1 :: rest →
      upperStr k = str "ARTIFACT" →
      processLine st line = .ok { st with
        registry := upsertA st.registry cur
          ({ t with
              artifacts := upsertA t.artifacts
                (artifactSpecSplit (joinSp (c1 :: rest))).1
                (artifactSpecSplit (joinSp (c1 :: rest))).2 }) }) ∧
    (∀ (m : List (Str × Str)) (s d : Str), lookupA (upsertA m s d) s = some d) := by
  have hne1 : ¬(str "ARTIFACT" = str "FROM") := by decide
  have hhw : (str "ARTIFACT").head? ≠ some '#' := by decide
  constructor
  · intro st cur t line k c1 rest hcur ht hf hk
    cases line with
    | nil => simp [fields] at hf
    | cons h0 tl =>
      have hh : ¬h0 = '#' := line_head_ne_hash hf hk hhw h0 rfl
      by_cases he : '=' ∈ joinSp (c1 :: rest)
      · simp [processLine, hh, hf, hcur, ht, updateCur, hk, hne1,
          splitFirst, artifactSpecSplit, he]
      · by_cases hsp : ' ' ∈ joinSp (c1 :: rest)
        · simp [processLine, hh, hf, hcur, ht, updateCur, hk, hne1,
            splitFirst, artifactSpecSplit, he, hsp]
        · simp [processLine, hh, hf, hcur, ht, updateCur, hk, hne1,
            splitFirst, artifactSpecSplit, he, hsp]
  · intro m s d
    exact lookupA_upsertA_self m s d

/-- Witness for C7: the spec's two example lines
`ARTIFACT build/out.bin build/` (space form) and
`ARTIFACT build/out.bin=dist/app` (equals form). -/
theorem C7_witness :
    processLine exState (str "ARTIFACT build/out.bin build/") = .ok { exState with
      registry := upsertA exState.registry (str "t")
        ({ exTargetT with
            artifacts := upsertA exTargetT.artifacts
              (artifactSpecSplit (joinSp [str "build/out.bin", str "build/"])).1
              (artifactSpecSplit (joinSp [str "build/out.bin", str "build/"])).2 }) } ∧
    lookupA (upsertA ([] : List (Str × Str)) (str "build/out.bin") (str "dist/app"))
        (str "build/out.bin") = some (str "dist/app") :=
  ⟨C7_artifact_split_and_store.1 exState (str "t") exTargetT
      (str "ARTIFACT build/out.bin build/") (str "ARTIFACT")
      (str "build/out.bin") [str "build/"] rfl (by decide) (by decide) (by decide),
   C7_artifact_split_and_store.2 [] (str "build/out.bin") (str "dist/app")⟩

/-- C8: a metadata (`LABEL`) line parsed while a target is current whose
joined remainder splits on the first `=` is inspected: when the
quote-stripped key lowercases to `description`, the quote-stripped value
becomes the target's description; and regardless of key, the original
line is appended verbatim to the body (with only the description
possibly changing). -/
theorem C8_label_description_and_verbatim_body :
    (∀ (st : PState) (cur : Str) (t : Target) (line k c1 kk vv : Str) (rest : List Str),
      st.current = some cur →
      lookupA st.registry cur = some t →
      fields line = k :: c1 :: rest →
      upperStr k = str "LABEL" →
      splitFirst '=' (joinSp (c1 :: rest)) = (kk, some vv) →
      lowerStr (trimCut (str "\"") kk) = str "description" →
      processLine st line = .ok { st with
        registry := upsertA st.registry cur
          ({ t with desc := trimCut (str "\"") vv,
                    defn := t.defn ++ line ++ ['\n'] }) }) ∧
    (∀ (st : PState) (cur : Str) (t : Target) (line k c1 : Str) (rest : List Str),
      st.current = some cur →
      lookupA st.registry cur = some t →
      fields line = k :: c1 :: rest →
      upperStr k = str "LABEL" →
      ∃ d, processLine st line = .ok { st with
        registry := upsertA st.registry cur
          ({ t with desc := d, defn := t.defn ++ line ++ ['\n'] }) }) := by
  have hne1 : ¬(str "LABEL" = str "FROM") := by decide
  have hne2 : ¬(str "LABEL" = str "ARTIFACT") := by decide
  have hne3 : ¬(str "LABEL" = str "ENVARG") := by decide
  have hhw : (str "LABEL").head? ≠ some '#' := by decide
  constructor
  · intro st cur t line k c1 kk vv rest hcur ht hf hk hkv hdesc
    cases line with
    | nil => simp [fields] at hf
    | cons h0 tl =>
      have hh : ¬h0 = '#' := line_head_ne_hash hf hk hhw h0 rfl
      simp [processLine, hh, hf, hcur, ht, updateCur, hk, hne1, hne2, hne3,
        hkv, hdesc]
  · intro st cur t line k c1 rest hcur ht hf hk
    cases line with
    | nil => simp [fields] at hf
    | cons h0 tl =>
      have hh : ¬h0 = '#' := line_head_ne_hash hf hk hhw h0 rfl
      refine ⟨(match (splitFirst '=' (joinSp (c1 :: rest))).2 with
        | some v =>
          if lowerStr (trimCut (str "\"") (splitFirst '=' (joinSp (c1 :: rest))).1) =
              str "description" then trimCut (str "\"") v
          else t.desc
        | none => t.desc), ?_⟩
      simp [processLine, hh, hf, hcur, ht, updateCur, hk, hne1, hne2, hne3]

/-- Witness for C8 at the spec's example
`LABEL Description="Builds the binary"`. -/
theorem C8_witness :
    processLine exState (str "LABEL Description=\"Builds the binary\"") =
      .ok { exState with
        registry := upsertA exState.registry (str "t")
          ({ exTargetT with
              desc := trimCut (str "\"") (str "\"Builds the binary\""),
              defn := exTargetT.defn ++
                str "LABEL Description=\"Builds the binary\"" ++ ['\n'] }) } :=
  C8_label_description_and_verbatim_body.1 exState (str "t") exTargetT
    (str "LABEL Description=\"Builds the binary\"") (str "LABEL")
    (str "Description=\"Builds") (str "Description")
    (str "\"Builds the binary\"") [str "the", str "binary\""]
    rfl (by decide) (by decide) (by decide) (by decide) (by decide)

/-- C10: a line whose first whitespace-delimited token case-insensitively
equals the header keyword but which fails the header pattern (for
example a bare `FROM` with no reference token) is silently skipped:
the parser state — registry, current target, default target — is
returned unchanged and no error is raised. -/
theorem C10_malformed_header_is_skipped :
    ∀ (st : PState) (line k : Str) (r : List Str),
      fields line = k :: r →
      upperStr k = str "FROM" →
      parseFromLine line = none →
      processLine st line = .ok st := by
  intro st line k r hf hk hpf
  cases line with
  | nil => simp [fields] at hf
  | cons h0 tl =>
    by_cases hh : h0 = '#'
    · simp [processLine, hh]
    · simp [processLine, hh, hf, hk, hpf]

/-- Witness for C10 at the bare header line `FROM`. -/
theorem C10_witness : processLine exState (str "FROM") = .ok exState :=
  C10_malformed_header_is_skipped exState (str "FROM") (str "FROM") []
    (by decide) (by decide) (by decide)

/-- C4 (code bug): on the spec's own example registry — `a` and `c`
have non-empty descriptions, `b` has none — `print` lists only one of
the two described targets, whichever comes first in map iteration
order, because a name is collected only when strictly longer than the
longest name seen so far; the spec requires both `a` and `c`. -/
theorem C4_print_drops_described_targets :
    printNames printRegAsc = [str "a"] ∧
      printNames printRegDesc = [str "c"] ∧
      printLines printRegAsc = [str "drmake a # desc A"] := by
  decide

/-- C9: neither recipe resolution nor execution-order planning mutates
the registry or any target stored in it: the state-passing versions of
`Dockerfile` and `buildExecOrder`, which thread the registry through
every step and recursive call of the original control flow, return the
registry exactly as it was passed in. -/
theorem C9_resolver_and_planner_preserve_registry :
    (∀ (fs : FileSys) (fuel : Nat) (reg : Registry) (t : Target),
        (dockerfileS fs fuel reg t).2 = reg) ∧
    (∀ (fuel : Nat) (reg : Registry) (ts : List Str),
        (buildExecOrderS fuel reg ts).2 = reg) := by
  have hstepD : ∀ (fs : FileSys) recur,
      (∀ (reg : Registry) (t : Target), (recur reg t).2 = reg) →
      ∀ (reg : Registry) (t : Target), (dockerStepS fs recur reg t).2 = reg := by
    intro fs recur hrec reg t
    rw [dockerStepS]
    repeat' split
    all_goals simp [hrec]
  have hD : ∀ (fs : FileSys) (fuel : Nat) (reg : Registry) (t : Target),
      (dockerfileS fs fuel reg t).2 = reg := by
    intro fs fuel
    induction fuel with
    | zero => exact hstepD _ _ (fun _ _ => rfl)
    | succ f ih => exact hstepD _ _ ih
  have hstepB : ∀ recur,
      (∀ (reg : Registry) (ds : List Str), (recur reg ds).2 = reg) →
      ∀ (reg : Registry) (ts : List Str), (bexStepS recur reg ts).2 = reg := by
    intro recur hrec reg ts
    induction ts generalizing reg with
    | nil => simp [bexStepS]
    | cons n ns ih =>
      rw [bexStepS]
      cases hl : lookupA reg n with
      | none => rfl
      | some t =>
        simp only []
        cases e1 : (recur reg t.deps).1 with
        | ok d =>
          have h2 := hrec reg t.deps
          simp only [e1]
          have h3 := ih (recur reg t.deps).2
          cases e3 : (bexStepS recur (recur reg t.deps).2 ns).1 <;>
            simp [e3] at h3 ⊢ <;> rw [h3, h2]
        | unknownTarget m => simp [e1, hrec reg t.deps]
        | outOfFuel => simp [e1, hrec reg t.deps]
  have hB : ∀ (fuel : Nat) (reg : Registry) (ts : List Str),
      (bexLoopS fuel reg ts).2 = reg := by
    intro fuel
    induction fuel with
    | zero => exact hstepB _ (fun _ _ => rfl)
    | succ f ih => exact hstepB _ ih
  refine ⟨hD, ?_⟩
  intro fuel reg ts
  have := hB fuel reg ts
  simp only [buildExecOrderS]
  cases e : (bexLoopS fuel reg ts).1 <;> simpa [e] using this

end Drmake
